import Mathlib

/-!
Verification of the SecureBank banking management system (`bank.py`).

The source is a single `Bank` class holding `self.data`, a JSON-backed list
of account dictionaries, with operations `create_account`, `deposit`,
`withdraw`, `show_details`, `delete_account`, and private helpers
`_load_data`, `_save_data`, `_hash_pin`, `_generate_account_number`,
`_find_user`.

Embedding conventions:
* The interactive `input()` / `print()` layer is stripped away: each
  operation takes its already-parsed arguments and returns
  `Except String newState`, where the `String` of an `Except.error` is the
  exact message the source prints on that failure path and `Except.ok`
  carries the mutated account list.  An `Except.error` result corresponds
  to the source returning without touching `self.data`, so "store
  unchanged on failure" is structural in the embedding.
* Python numbers: `age` and `pin` are Python ints, embedded as `Int`;
  monetary amounts are Python floats (IEEE-754 binary64), carried as
  rationals `ℚ`.  The balance arithmetic appears in two forms: the exact
  idealization (`depositUpd`, `withdrawUpd`), adequate for facts that are
  insensitive to rounding (sign preservation, exact zero from `b - b`,
  frame and ordering properties), and the rounded binary64 semantics
  (`fl`, `depositUpdFl`, `withdrawUpdFl`), used where rounding is
  observable, as in the deposit-then-withdraw restoration claim.
* `Bank._hash_pin` computes `hashlib.sha256(str(pin)).encode()).hexdigest()`.
  SHA-256 itself is not reproduced; the development is parameterized by the
  digest function `hp : Int → String`.  The program uses no property of the
  digest beyond determinism (digests are only ever compared for equality).
* `datetime.now()` is an external input, passed in as a `String` timestamp.
* `random.choices(string.ascii_uppercase + string.digits, k=8)` is an
  external randomness source: `generate_account_number` consumes an
  explicit stream of candidate strings instead of sampling; the source
  loops forever, so on an exhausted stream the model returns `none`.
-/

/-- One ledger entry, mirroring the dict
`\x7b"type": ..., "amount": ..., "date": ...\x7d` appended by
`Bank.deposit` / `Bank.withdraw`. -/
structure Transaction where
  type : String
  amount : ℚ
  date : String
deriving DecidableEq

/-- One account record, mirroring the dict built in `Bank.create_account`
with keys `name`, `age`, `email`, `pin` (the stored digest),
`account_no`, `balance`, `transactions`. -/
structure Account where
  name : String
  age : Int
  email : String
  pin : String
  account_no : String
  balance : ℚ
  transactions : List Transaction
deriving DecidableEq

deriving instance DecidableEq for Except

/-- The check `user["account_no"] == account_no and user["pin"] == hashed_pin`
from `Bank._find_user`. -/
def credMatch (hp : Int → String) (account_no : String) (pin : Int)
    (u : Account) : Bool :=
  u.account_no == account_no && u.pin == hp pin

/-- `Bank._find_user`: scan `self.data` in order and return the first user
whose account number and PIN digest both match, else `None`. -/
def find_user (hp : Int → String) (data : List Account)
    (account_no : String) (pin : Int) : Option Account :=
  data.find? (credMatch hp account_no pin)

/-- In-place mutation of the first element matching `p`, as the source does
through the dict reference returned by `_find_user`: the element keeps its
position in `self.data`. -/
def update_first (p : Account → Bool) (f : Account → Account) :
    List Account → List Account
  | [] => []
  | u :: rest => if p u then f u :: rest else u :: update_first p f rest

/-- `Bank._generate_account_number`: keep drawing 8-character candidates
until one collides with no existing `account_no`.  The random stream is the
explicit `candidates` list; the source loops forever, so exhaustion
(`none`) cannot occur there. -/
def generate_account_number (data : List Account) :
    List String → Option String
  | [] => none
  | c :: rest =>
    if data.any (fun u => u.account_no == c) then
      generate_account_number data rest
    else some c

/-- The new-user dict literal of `Bank.create_account`:
zero balance, empty history. -/
def new_user (name : String) (age : Int) (email : String)
    (pinDigest : String) (account_no : String) : Account :=
  { name := name, age := age, email := email, pin := pinDigest,
    account_no := account_no, balance := 0, transactions := [] }

/-- `Bank.create_account` after input parsing: the validation
`age < 18 or len(str(pin)) != 4` rejects, otherwise a fresh account number
is generated and the new user is appended to `self.data`.  Returns the new
list together with the account number reported to the caller. -/
def create_account (hp : Int → String) (data : List Account)
    (name : String) (age : Int) (email : String) (pin : Int)
    (candidates : List String) : Except String (List Account × String) :=
  if age < 18 ∨ (toString pin).length ≠ 4 then
    .error "Account creation failed. Age must be 18+ and PIN must be 4 digits."
  else
    match generate_account_number data candidates with
    | none => .error "model: candidate stream exhausted"
    | some account_no =>
      .ok (data ++ [new_user name age email (hp pin) account_no], account_no)

/-- The balance increment and ledger append performed by `Bank.deposit` on
the found user, in the exact-arithmetic idealization: the source computes
`user["balance"] += amount` in IEEE-754 doubles, which is `fl` of this
sum (see `depositUpdFl` for the rounded semantics). -/
def depositUpd (amount : ℚ) (now : String) (u : Account) : Account :=
  { u with balance := u.balance + amount,
           transactions := u.transactions ++ [⟨"deposit", amount, now⟩] }

/-- The balance decrement and ledger append performed by `Bank.withdraw` on
the found user, in the exact-arithmetic idealization: the source computes
`user["balance"] -= amount` in IEEE-754 doubles, which is `fl` of this
difference (see `withdrawUpdFl` for the rounded semantics). -/
def withdrawUpd (amount : ℚ) (now : String) (u : Account) : Account :=
  { u with balance := u.balance - amount,
           transactions := u.transactions ++ [⟨"withdraw", amount, now⟩] }

/-- `Bank.deposit`: the amount check comes first, then the lookup, then the
in-place mutation of the found user. -/
def deposit (hp : Int → String) (data : List Account) (account_no : String)
    (pin : Int) (amount : ℚ) (now : String) : Except String (List Account) :=
  if amount ≤ 0 then .error "Amount must be positive."
  else
    match find_user hp data account_no pin with
    | none => .error "Invalid account details."
    | some _ =>
      .ok (update_first (credMatch hp account_no pin)
        (depositUpd amount now) data)

/-- `Bank.withdraw`: the lookup comes first, then the amount check
`amount <= 0 or amount > user["balance"]`, then the in-place mutation. -/
def withdraw (hp : Int → String) (data : List Account) (account_no : String)
    (pin : Int) (amount : ℚ) (now : String) : Except String (List Account) :=
  match find_user hp data account_no pin with
  | none => .error "Invalid account details."
  | some user =>
    if amount ≤ 0 ∨ user.balance < amount then
      .error "Invalid withdrawal amount."
    else
      .ok (update_first (credMatch hp account_no pin)
        (withdrawUpd amount now) data)

/-- `Bank.delete_account`: lookup, then `input(...).lower()` confirmation;
on `"y"` the source calls `self.data.remove(user)`, which removes the first
element structurally equal to the found user (`List.erase`); otherwise the
deletion is cancelled and the list is untouched. -/
def delete_account (hp : Int → String) (data : List Account)
    (account_no : String) (pin : Int) (confirm : String) :
    Except String (List Account) :=
  match find_user hp data account_no pin with
  | none => .error "Invalid account details."
  | some user =>
    if confirm.toLower == "y" then .ok (data.erase user)
    else .ok data

/-- A JSON document, as produced by `json.dump` / consumed by `json.load`.
Numbers are exact rationals, matching the numeric embedding. -/
inductive Json where
  | num (q : ℚ)
  | str (s : String)
  | arr (elems : List Json)
  | obj (fields : List (String × Json))

/-- Python dict field access `d[k]`: the value under the first occurrence
of key `k` (the encoder below emits each key once). -/
def getField (fields : List (String × Json)) (k : String) : Option Json :=
  (fields.find? (fun f => f.1 == k)).map (fun f => f.2)

/-- Read a JSON string. -/
def asStr : Json → Option String
  | .str s => some s
  | _ => none

/-- Read a JSON number. -/
def asNum : Json → Option ℚ
  | .num q => some q
  | _ => none

/-- Read a JSON integer (a number with denominator 1). -/
def asInt : Json → Option Int
  | .num q => if q.den = 1 then some q.num else none
  | _ => none

/-- Serialization of one ledger entry, with the keys and order used by
`Bank.deposit` / `Bank.withdraw`. -/
def encodeTransaction (t : Transaction) : Json :=
  .obj [("type", .str t.type), ("amount", .num t.amount),
        ("date", .str t.date)]

/-- Serialization of one account dict, with the keys and order used by
`Bank.create_account`. -/
def encodeAccount (u : Account) : Json :=
  .obj [("name", .str u.name), ("age", .num u.age), ("email", .str u.email),
        ("pin", .str u.pin), ("account_no", .str u.account_no),
        ("balance", .num u.balance),
        ("transactions", .arr (u.transactions.map encodeTransaction))]

/-- `Bank._save_data`: `json.dump(self.data, f)` writes the full list as
one top-level JSON array.  The embedding returns the document written. -/
def save_data (data : List Account) : Json :=
  .arr (data.map encodeAccount)

/-- Interpretation of a parsed JSON value as a ledger entry.  In the
dynamically-typed source the parsed value is used directly; the typed
embedding makes the schema explicit. -/
def decodeTransaction : Json → Option Transaction
  | .obj fields => do
    let ty ← getField fields "type" >>= asStr
    let amount ← getField fields "amount" >>= asNum
    let date ← getField fields "date" >>= asStr
    some ⟨ty, amount, date⟩
  | _ => none

/-- Decode every element of a parsed JSON array, failing if any element
fails. -/
def decodeList (dec : Json → Option α) : List Json → Option (List α)
  | [] => some []
  | j :: rest => do
    let a ← dec j
    let xs ← decodeList dec rest
    some (a :: xs)

/-- Interpretation of a parsed JSON value as an account record. -/
def decodeAccount : Json → Option Account
  | .obj fields => do
    let name ← getField fields "name" >>= asStr
    let age ← getField fields "age" >>= asInt
    let email ← getField fields "email" >>= asStr
    let pinDigest ← getField fields "pin" >>= asStr
    let account_no ← getField fields "account_no" >>= asStr
    let balance ← getField fields "balance" >>= asNum
    let txJson ← getField fields "transactions"
    match txJson with
    | .arr txs => do
      let transactions ← decodeList decodeTransaction txs
      some ⟨name, age, email, pinDigest, account_no, balance, transactions⟩
    | _ => none
  | _ => none

/-- Interpretation of a parsed top-level JSON document as the account
list. -/
def decodeAccounts : Json → Option (List Account)
  | .arr elems => decodeList decodeAccount elems
  | _ => none

/-- The four ways reading the backing file can go in `Bank._load_data`:
the file is absent; `json.load` raises a `json.JSONDecodeError` (the only
exception the `except` clause catches); `json.load` raises some *other*
exception — `UnicodeDecodeError` when the bytes are not valid text in the
file encoding, `RecursionError` on a deeply nested document — which the
`except` clause does not catch; or the parse succeeds with a document. -/
inductive LoadInput where
  | missing
  | unparseable
  | raises (exc : String)
  | parsed (j : Json)

/-- `Bank._load_data`: a missing file and a `JSONDecodeError` both yield
the empty list, silently; any other exception from `json.load` propagates
out of `_load_data` (modelled as `Except.error` carrying the exception
name), crashing the constructor; a parsed document is the data.  The
typed embedding interprets a parsed document through `decodeAccounts`
(`none` models a parsed document that is not account-shaped, which the
source would keep as-is and trip over later). -/
def load_data : LoadInput → Except String (Option (List Account))
  | .missing => .ok (some [])
  | .unparseable => .ok (some [])
  | .raises exc => .error exc
  | .parsed j => .ok (decodeAccounts j)

/-- Spec invariant: every stored balance is non-negative. -/
abbrev AllNonNeg (data : List Account) : Prop :=
  ∀ u ∈ data, 0 ≤ u.balance

/-- Spec invariant: account numbers identify records uniquely. -/
abbrev NumbersUnique (data : List Account) : Prop :=
  ∀ u ∈ data, ∀ v ∈ data, u.account_no = v.account_no → u = v

/-- Membership in `string.ascii_uppercase + string.digits`. -/
abbrev isAccountChar (c : Char) : Prop :=
  ('A' ≤ c ∧ c ≤ 'Z') ∨ ('0' ≤ c ∧ c ≤ '9')

/-- What `random.choices(string.ascii_uppercase + string.digits, k=8)`
guarantees about every candidate it produces. -/
abbrev ValidCandidate (s : String) : Prop :=
  s.length = 8 ∧ ∀ c ∈ s.data, isAccountChar c

/-- Concrete digest function used to instantiate the parameterized
development in witnesses: any deterministic `Int → String` will do. -/
def demoHash : Int → String := fun pin => "digest" ++ toString pin

/-- A concrete stored account used by witnesses. -/
def demoAcct : Account :=
  { name := "Alice", age := 30, email := "a@x.com", pin := demoHash 1234,
    account_no := "AB12CD34", balance := 60, transactions := [] }

/-- A concrete stored account with zero balance, exercising the
`amount == balance == 0` corner of `Bank.withdraw`. -/
def zeroAcct : Account :=
  { name := "Zed", age := 40, email := "z@x.com", pin := demoHash 4321,
    account_no := "ZZ00XX11", balance := 0, transactions := [] }

/-! ## IEEE-754 binary64 semantics of the balance arithmetic

Python floats are IEEE-754 doubles: every arithmetic result is rounded to
53 significand bits, to nearest, ties to even.  `fl` below is that
rounding map on exact rationals, with an unbounded exponent range (the
overflow and subnormal thresholds are irrelevant at the magnitudes any
bank balance reaches, and in particular at the inputs evaluated here).
-/

/-- Powers of two with integer exponent. -/
def pow2 : Int → ℚ
  | .ofNat k => ((2 ^ k : Nat) : ℚ)
  | .negSucc k => 1 / ((2 ^ (k + 1) : Nat) : ℚ)

/-- One stage of mantissa normalization: multiply or divide the positive
rational `m` by `2 ^ step` (adjusting the exponent `e` so that `m * 2 ^ e`
is unchanged) while `m` lies outside `[2 ^ (53 - step), 2 ^ (52 + step))`;
each guard guarantees the move cannot overshoot the target interval
`[2^52, 2^53)` from its side. -/
def adjustStage (step : Nat) : Nat → ℚ → Int → ℚ × Int
  | 0, m, e => (m, e)
  | fuel + 1, m, e =>
    if m < pow2 (53 - (step : Int)) then
      adjustStage step fuel (m * pow2 (step : Int)) (e - step)
    else if pow2 (52 + (step : Int)) ≤ m then
      adjustStage step fuel (m / pow2 (step : Int)) (e + step)
    else (m, e)

/-- Normalize a positive rational to `(m, e)` with `m * 2 ^ e` the input
and `2^52 ≤ m < 2^53`, via coarse-to-fine stages (steps 512, 64, 8, 1
with small fuel); exact whenever `|log2 input| < 4000`, far beyond the
binary64 exponent range within which the source's floats are finite at
all. -/
def flNormalize (p : ℚ) : ℚ × Int :=
  let s1 := adjustStage 512 8 p 0
  let s2 := adjustStage 64 16 s1.1 s1.2
  let s3 := adjustStage 8 16 s2.1 s2.2
  adjustStage 1 16 s3.1 s3.2

/-- Round a non-negative rational to the nearest integer, ties to even. -/
def roundNearestEven (m : ℚ) : Int :=
  let n := ⌊m⌋
  let frac := m - (n : ℚ)
  if frac < 1 / 2 then n
  else if (1 : ℚ) / 2 < frac then n + 1
  else if n % 2 = 0 then n else n + 1

/-- IEEE-754 binary64 rounding (round to nearest, ties to even, unbounded
exponent range): the value Python stores after any float arithmetic on
finite doubles. -/
def fl (q : ℚ) : ℚ :=
  if q = 0 then 0
  else
    let p : ℚ := if q < 0 then -q else q
    let me := flNormalize p
    (if q < 0 then (-1 : ℚ) else 1) * (roundNearestEven me.1 : ℚ) * pow2 me.2

/-- `Bank.deposit`'s mutation of the found user under the source's actual
float semantics: `user["balance"] += amount` stores the rounded sum. -/
def depositUpdFl (amount : ℚ) (now : String) (u : Account) : Account :=
  { u with balance := fl (u.balance + amount),
           transactions := u.transactions ++ [⟨"deposit", amount, now⟩] }

/-- `Bank.withdraw`'s mutation of the found user under the source's actual
float semantics: `user["balance"] -= amount` stores the rounded
difference. -/
def withdrawUpdFl (amount : ℚ) (now : String) (u : Account) : Account :=
  { u with balance := fl (u.balance - amount),
           transactions := u.transactions ++ [⟨"withdraw", amount, now⟩] }

/-- `Bank.deposit` under float semantics: identical control flow to
`deposit` (amount check, then lookup, then in-place mutation), with the
stored balance rounded as the source's `+=` rounds it.  The comparisons
themselves are exact on the stored values, as float comparisons are. -/
def depositFl (hp : Int → String) (data : List Account)
    (account_no : String) (pin : Int) (amount : ℚ) (now : String) :
    Except String (List Account) :=
  if amount ≤ 0 then .error "Amount must be positive."
  else
    match find_user hp data account_no pin with
    | none => .error "Invalid account details."
    | some _ =>
      .ok (update_first (credMatch hp account_no pin)
        (depositUpdFl amount now) data)

/-- `Bank.withdraw` under float semantics: identical control flow to
`withdraw`, with the stored balance rounded as the source's `-=` rounds
it. -/
def withdrawFl (hp : Int → String) (data : List Account)
    (account_no : String) (pin : Int) (amount : ℚ) (now : String) :
    Except String (List Account) :=
  match find_user hp data account_no pin with
  | none => .error "Invalid account details."
  | some user =>
    if amount ≤ 0 ∨ user.balance < amount then
      .error "Invalid withdrawal amount."
    else
      .ok (update_first (credMatch hp account_no pin)
        (withdrawUpdFl amount now) data)

/-- A concrete stored account with the exactly-representable balance 0.5,
exercising float rounding in the deposit-then-withdraw cycle. -/
def halfAcct : Account :=
  { name := "Hana", age := 33, email := "h@x.com", pin := demoHash 7777,
    account_no := "QQ11WW22", balance := 1 / 2, transactions := [] }

/-- `halfAcct` after depositing `1e16` under float semantics: the rounded
balance `fl (0.5 + 1e16)` is exactly `1e16`; the half is lost. -/
def halfAcctAfterDeposit : Account :=
  { name := "Hana", age := 33, email := "h@x.com", pin := demoHash 7777,
    account_no := "QQ11WW22", balance := 10 ^ 16,
    transactions := [⟨"deposit", 10 ^ 16, "t1"⟩] }

/-- `halfAcctAfterDeposit` after withdrawing `1e16` under float semantics:
`fl (1e16 - 1e16) = 0`, so the cycle ends at balance `0`, not the prior
`0.5`. -/
def halfAcctAfterCycle : Account :=
  { name := "Hana", age := 33, email := "h@x.com", pin := demoHash 7777,
    account_no := "QQ11WW22", balance := 0,
    transactions := [⟨"deposit", 10 ^ 16, "t1"⟩,
                     ⟨"withdraw", 10 ^ 16, "t2"⟩] }

/-! ## Structural lemmas about lookup and first-match update -/

theorem find?_decomp {α : Type} {p : α → Bool} {l : List α} {u : α}
    (h : l.find? p = some u) :
    ∃ l1 l2, l = l1 ++ u :: l2 ∧ (∀ v ∈ l1, p v = false) ∧ p u = true := by
  induction l with
  | nil => simp [List.find?_nil] at h
  | cons a t ih =>
    by_cases hpa : p a = true
    · rw [List.find?_cons_of_pos _ hpa] at h
      obtain rfl : a = u := by injection h
      exact ⟨[], t, by simp, by simp, hpa⟩
    · rw [List.find?_cons_of_neg _ hpa] at h
      obtain ⟨l1, l2, rfl, h1, h2⟩ := ih h
      refine ⟨a :: l1, l2, rfl, ?_, h2⟩
      intro v hv
      rcases List.mem_cons.mp hv with rfl | hv
      · exact Bool.eq_false_iff.mpr hpa
      · exact h1 v hv

theorem find?_prefix {α : Type} {p : α → Bool} {u : α} (l1 l2 : List α)
    (h1 : ∀ v ∈ l1, p v = false) (hu : p u = true) :
    (l1 ++ u :: l2).find? p = some u := by
  induction l1 with
  | nil => simpa using List.find?_cons_of_pos l2 hu
  | cons a t ih =>
    have ha : ¬ p a = true := by
      simp [h1 a (List.mem_cons_self a t)]
    rw [List.cons_append, List.find?_cons_of_neg _ ha]
    exact ih fun v hv => h1 v (List.mem_cons_of_mem a hv)

theorem update_first_prefix {p : Account → Bool} {f : Account → Account}
    {u : Account} (l1 l2 : List Account)
    (h1 : ∀ v ∈ l1, p v = false) (hu : p u = true) :
    update_first p f (l1 ++ u :: l2) = l1 ++ f u :: l2 := by
  induction l1 with
  | nil => simp [update_first, hu]
  | cons a t ih =>
    have ha : p a = false := h1 a (List.mem_cons_self a t)
    simp only [List.cons_append, update_first, ha, Bool.false_eq_true,
      if_false, List.append_eq]
    rw [ih fun v hv => h1 v (List.mem_cons_of_mem a hv)]

theorem credMatch_eq_true_iff {hp : Int → String} {account_no : String}
    {pin : Int} {u : Account} :
    credMatch hp account_no pin u = true ↔
      u.account_no = account_no ∧ u.pin = hp pin := by
  simp [credMatch, Bool.and_eq_true, beq_iff_eq]

theorem credMatch_depositUpd (hp : Int → String) (account_no : String)
    (pin : Int) (amount : ℚ) (now : String) (u : Account) :
    credMatch hp account_no pin (depositUpd amount now u) =
      credMatch hp account_no pin u := rfl

theorem credMatch_withdrawUpd (hp : Int → String) (account_no : String)
    (pin : Int) (amount : ℚ) (now : String) (u : Account) :
    credMatch hp account_no pin (withdrawUpd amount now u) =
      credMatch hp account_no pin u := rfl

/-- Successful-deposit decomposition: with a positive amount and a found
user, `deposit` rewrites exactly the first credential match, in place. -/
theorem deposit_ok_decomp {hp : Int → String} {data : List Account}
    {account_no : String} {pin : Int} {amount : ℚ} {now : String}
    {u : Account} (hfind : find_user hp data account_no pin = some u)
    (hamt : ¬ amount ≤ 0) :
    ∃ l1 l2, data = l1 ++ u :: l2 ∧
      (∀ v ∈ l1, credMatch hp account_no pin v = false) ∧
      credMatch hp account_no pin u = true ∧
      deposit hp data account_no pin amount now =
        .ok (l1 ++ depositUpd amount now u :: l2) := by
  obtain ⟨l1, l2, hdata, h1, h2⟩ := find?_decomp hfind
  refine ⟨l1, l2, hdata, h1, h2, ?_⟩
  rw [deposit, if_neg hamt, hfind, hdata,
    update_first_prefix l1 l2 h1 h2]

/-- Successful-withdrawal decomposition: with a found user and an amount in
`(0, balance]`, `withdraw` rewrites exactly the first credential match. -/
theorem withdraw_ok_decomp {hp : Int → String} {data : List Account}
    {account_no : String} {pin : Int} {amount : ℚ} {now : String}
    {u : Account} (hfind : find_user hp data account_no pin = some u)
    (hamt : ¬ (amount ≤ 0 ∨ u.balance < amount)) :
    ∃ l1 l2, data = l1 ++ u :: l2 ∧
      (∀ v ∈ l1, credMatch hp account_no pin v = false) ∧
      credMatch hp account_no pin u = true ∧
      withdraw hp data account_no pin amount now =
        .ok (l1 ++ withdrawUpd amount now u :: l2) := by
  obtain ⟨l1, l2, hdata, h1, h2⟩ := find?_decomp hfind
  refine ⟨l1, l2, hdata, h1, h2, ?_⟩
  simp only [withdraw, hfind]
  rw [if_neg hamt, hdata, update_first_prefix l1 l2 h1 h2]

theorem find_user_prefix {hp : Int → String} {account_no : String}
    {pin : Int} {u2 : Account} (l1 l2 : List Account)
    (h1 : ∀ v ∈ l1, credMatch hp account_no pin v = false)
    (hu : credMatch hp account_no pin u2 = true) :
    find_user hp (l1 ++ u2 :: l2) account_no pin = some u2 :=
  find?_prefix l1 l2 h1 hu

theorem generate_account_number_spec (data : List Account)
    (cands : List String)
    (hfresh : ∃ c ∈ cands, ∀ u ∈ data, u.account_no ≠ c) :
    ∃ r, generate_account_number data cands = some r ∧ r ∈ cands ∧
      ∀ u ∈ data, u.account_no ≠ r := by
  induction cands with
  | nil => simp at hfresh
  | cons c rest ih =>
    by_cases hc : data.any (fun u => u.account_no == c) = true
    · obtain ⟨u, hu, hbeq⟩ := List.any_eq_true.mp hc
      obtain ⟨c0, hc0, hfr⟩ := hfresh
      rcases List.mem_cons.mp hc0 with rfl | hc0r
      · exact absurd (beq_iff_eq.mp hbeq) (hfr u hu)
      · obtain ⟨r, hgen, hrmem, hrfr⟩ := ih ⟨c0, hc0r, hfr⟩
        refine ⟨r, ?_, List.mem_cons_of_mem c hrmem, hrfr⟩
        simpa [generate_account_number, hc] using hgen
    · refine ⟨c, by simp [generate_account_number, hc],
        List.mem_cons_self c rest, ?_⟩
      intro u hu heq
      exact hc (List.any_eq_true.mpr ⟨u, hu, beq_iff_eq.mpr heq⟩)

/-! ## Claim C1: balances never go negative -/

/-- The C1 property over a store: overdrafts are rejected, and every
operation preserves non-negativity of all balances. -/
def NonNegPreserved (hp : Int → String) (data : List Account) : Prop :=
  (∀ account_no pin amount now u,
      find_user hp data account_no pin = some u → u.balance < amount →
      withdraw hp data account_no pin amount now =
        .error "Invalid withdrawal amount.") ∧
  (∀ name age email pin cands d2 accNo,
      create_account hp data name age email pin cands = .ok (d2, accNo) →
      AllNonNeg d2) ∧
  (∀ account_no pin amount now d2,
      deposit hp data account_no pin amount now = .ok d2 → AllNonNeg d2) ∧
  (∀ account_no pin amount now d2,
      withdraw hp data account_no pin amount now = .ok d2 → AllNonNeg d2) ∧
  (∀ account_no pin confirm d2,
      delete_account hp data account_no pin confirm = .ok d2 → AllNonNeg d2)

/-- C1: on a store whose balances are all non-negative, a withdrawal whose
amount exceeds the account balance is rejected with the
invalid-withdrawal-amount error, and each of `create_account`, `deposit`,
`withdraw` and `delete_account`, when it succeeds, yields a store whose
balances are again all non-negative. -/
theorem balances_never_negative (hp : Int → String) (data : List Account)
    (hnn : AllNonNeg data) : NonNegPreserved hp data := by
  refine ⟨?_, ?_, ?_, ?_, ?_⟩
  · intro account_no pin amount now u hfind hlt
    simp only [withdraw, hfind]
    rw [if_pos (Or.inr hlt)]
  · intro name age email pin cands d2 accNo h
    by_cases hv : age < 18 ∨ (toString pin).length ≠ 4
    · simp [create_account, hv] at h
    · cases hgen : generate_account_number data cands with
      | none => simp [create_account, hv, hgen] at h
      | some acc =>
        simp only [create_account, hv, if_false, hgen, Except.ok.injEq,
          Prod.mk.injEq] at h
        obtain ⟨rfl, rfl⟩ := h
        intro v hv2
        rcases List.mem_append.mp hv2 with hv2 | hv2
        · exact hnn v hv2
        · rw [List.mem_singleton.mp hv2]
          exact le_refl 0
  · intro account_no pin amount now d2 h
    by_cases hamt : amount ≤ 0
    · simp [deposit, hamt] at h
    · cases hfind : find_user hp data account_no pin with
      | none => simp [deposit, hamt, hfind] at h
      | some u =>
        obtain ⟨l1, l2, hdata, h1, h2, hdep⟩ :=
          deposit_ok_decomp hfind hamt
        rw [hdep] at h
        obtain rfl : l1 ++ depositUpd amount now u :: l2 = d2 := by
          injection h
        intro v hv
        rcases List.mem_append.mp hv with hv | hv
        · exact hnn v (hdata ▸ List.mem_append_left _ hv)
        · rcases List.mem_cons.mp hv with rfl | hv
          · have hu : 0 ≤ u.balance :=
              hnn u (hdata ▸ List.mem_append_right _ (List.mem_cons_self _ _))
            have hamt2 : 0 < amount := lt_of_not_le hamt
            simpa [depositUpd] using add_nonneg hu hamt2.le
          · exact hnn v
              (hdata ▸ List.mem_append_right _ (List.mem_cons_of_mem _ hv))
  · intro account_no pin amount now d2 h
    cases hfind : find_user hp data account_no pin with
    | none => simp [withdraw, hfind] at h
    | some u =>
      by_cases hamt : amount ≤ 0 ∨ u.balance < amount
      · simp only [withdraw, hfind] at h
        rw [if_pos hamt] at h
        exact absurd h (by simp)
      · obtain ⟨l1, l2, hdata, h1, h2, hwd⟩ :=
          withdraw_ok_decomp hfind hamt
        rw [hwd] at h
        obtain rfl : l1 ++ withdrawUpd amount now u :: l2 = d2 := by
          injection h
        intro v hv
        rcases List.mem_append.mp hv with hv | hv
        · exact hnn v (hdata ▸ List.mem_append_left _ hv)
        · rcases List.mem_cons.mp hv with rfl | hv
          · have hle : amount ≤ u.balance := le_of_not_lt (not_or.mp hamt).2
            simpa [withdrawUpd] using sub_nonneg.mpr hle
          · exact hnn v
              (hdata ▸ List.mem_append_right _ (List.mem_cons_of_mem _ hv))
  · intro account_no pin confirm d2 h
    cases hfind : find_user hp data account_no pin with
    | none => simp [delete_account, hfind] at h
    | some u =>
      by_cases hcf : (confirm.toLower == "y") = true
      · simp only [delete_account, hfind, hcf, if_true] at h
        obtain rfl : data.erase u = d2 := by injection h
        intro v hv
        exact hnn v (List.erase_subset _ _ hv)
      · simp only [delete_account, hfind] at h
        rw [if_neg hcf] at h
        obtain rfl : data = d2 := by injection h
        exact hnn

theorem balances_never_negative_witness :
    AllNonNeg [demoAcct] ∧ NonNegPreserved demoHash [demoAcct] :=
  ⟨by with_unfolding_all decide,
   balances_never_negative demoHash [demoAcct]
     (by with_unfolding_all decide)⟩

/-! ## Claim C2: withdraw amount validation -/

/-- C2 (amended): for a found account, `withdraw` rejects a non-positive
amount or an amount above the balance with the invalid-withdrawal-amount
error, and when the balance is positive, withdrawing exactly the balance
succeeds, leaves that account at balance `0`, and appends exactly one
withdraw transaction.  (The unamended claim also asserted success for
`amount = balance = 0`, but the source rejects every non-positive amount
first; see the counterexample.) -/
theorem withdraw_amount_validation (hp : Int → String)
    (data : List Account) (account_no : String) (pin : Int) (u : Account)
    (hfind : find_user hp data account_no pin = some u) :
    (∀ amount now, amount ≤ 0 ∨ u.balance < amount →
      withdraw hp data account_no pin amount now =
        .error "Invalid withdrawal amount.") ∧
    (∀ now, 0 < u.balance →
      ∃ d2, withdraw hp data account_no pin u.balance now = .ok d2 ∧
        ∃ u2, find_user hp d2 account_no pin = some u2 ∧ u2.balance = 0 ∧
          u2.transactions =
            u.transactions ++ [⟨"withdraw", u.balance, now⟩]) := by
  constructor
  · intro amount now hbad
    simp only [withdraw, hfind]
    rw [if_pos hbad]
  · intro now hpos
    have hamt : ¬ (u.balance ≤ 0 ∨ u.balance < u.balance) := by
      push_neg
      exact ⟨hpos, le_refl _⟩
    obtain ⟨l1, l2, hdata, h1, h2, hwd⟩ := withdraw_ok_decomp hfind hamt
    refine ⟨l1 ++ withdrawUpd u.balance now u :: l2, hwd,
      withdrawUpd u.balance now u, ?_, ?_, rfl⟩
    · exact find_user_prefix l1 l2 h1
        ((credMatch_withdrawUpd hp account_no pin u.balance now u).trans h2)
    · simp [withdrawUpd]

theorem withdraw_amount_validation_witness :
    find_user demoHash [demoAcct] "AB12CD34" 1234 = some demoAcct ∧
    ((∀ amount now, amount ≤ 0 ∨ demoAcct.balance < amount →
      withdraw demoHash [demoAcct] "AB12CD34" 1234 amount now =
        .error "Invalid withdrawal amount.") ∧
    (∀ now, 0 < demoAcct.balance →
      ∃ d2, withdraw demoHash [demoAcct] "AB12CD34" 1234 demoAcct.balance
          now = .ok d2 ∧
        ∃ u2, find_user demoHash d2 "AB12CD34" 1234 = some u2 ∧
          u2.balance = 0 ∧
          u2.transactions = demoAcct.transactions ++
            [⟨"withdraw", demoAcct.balance, now⟩])) :=
  ⟨by with_unfolding_all decide,
   withdraw_amount_validation demoHash [demoAcct] "AB12CD34" 1234 demoAcct
     (by with_unfolding_all decide)⟩

/-- C2 counterexample: on an account whose balance is `0`, withdrawing
`amount = balance` is rejected (the source checks `amount <= 0` first), so
the claimed "`amount` exactly equal to the balance succeeds" is false as
stated. -/
theorem withdraw_equal_balance_counterexample :
    find_user demoHash [zeroAcct] "ZZ00XX11" 4321 = some zeroAcct ∧
    zeroAcct.balance = 0 ∧
    withdraw demoHash [zeroAcct] "ZZ00XX11" 4321 zeroAcct.balance "now" =
      .error "Invalid withdrawal amount." ∧
    ∀ d2, withdraw demoHash [zeroAcct] "ZZ00XX11" 4321 zeroAcct.balance
      "now" ≠ .ok d2 := by
  refine ⟨by with_unfolding_all decide, rfl,
    by with_unfolding_all decide, ?_⟩
  intro d2 h
  rw [show withdraw demoHash [zeroAcct] "ZZ00XX11" 4321 zeroAcct.balance
      "now" = .error "Invalid withdrawal amount." from
    by with_unfolding_all decide] at h
  exact Except.noConfusion h

/-! ## Claim C3: create-account validation -/

/-- C3: the source validation is `age < 18 or len(str(pin)) != 4`, which
is weaker than "the PIN is exactly 4 digit characters": `pin = -100` has
the 4-character string form `"-100"`, which is not all digits, yet
`create_account` accepts it and mutates the store.  This contradicts the
source's own message "PIN must be 4 digits". -/
theorem create_account_accepts_nondigit_pin :
    (toString (-100 : Int)).length = 4 ∧
    ((toString (-100 : Int)).data.all Char.isDigit) = false ∧
    create_account demoHash [] "Bob" 25 "b@x.com" (-100) ["ZZ99YY88"] =
      .ok ([new_user "Bob" 25 "b@x.com" (demoHash (-100)) "ZZ99YY88"],
        "ZZ99YY88") :=
  ⟨by decide, by decide, by decide⟩

/-! ## Claim C4: authentication by composite lookup -/

/-- The C4 property over a store with unique account numbers: lookup
succeeds exactly when some stored record matches number and PIN digest;
a correct number with a wrong PIN (digest differing from the stored one)
and a number stored nowhere both yield `none`; and on lookup failure
`deposit` and `withdraw` report one and the same generic error. -/
def AuthLookupSpec (hp : Int → String) (data : List Account) : Prop :=
  (∀ account_no pin,
      (find_user hp data account_no pin).isSome ↔
        ∃ u ∈ data, u.account_no = account_no ∧ u.pin = hp pin) ∧
  (∀ account_no pin u, find_user hp data account_no pin = some u →
      u ∈ data ∧ u.account_no = account_no ∧ u.pin = hp pin) ∧
  (∀ u ∈ data, ∀ pin2, hp pin2 ≠ u.pin →
      find_user hp data u.account_no pin2 = none) ∧
  (∀ account_no pin, (∀ u ∈ data, u.account_no ≠ account_no) →
      find_user hp data account_no pin = none) ∧
  (∀ account_no pin amount now,
      find_user hp data account_no pin = none → 0 < amount →
      deposit hp data account_no pin amount now =
          withdraw hp data account_no pin amount now ∧
        deposit hp data account_no pin amount now =
          .error "Invalid account details.")

/-- C4: `_find_user` authenticates by scanning for a record matching both
the account number and the PIN digest; with unique account numbers, a
correct number with a wrong PIN and a wrong (unused) number both return
`None`, and the two failure modes are indistinguishable: at the operation
level both produce the same generic invalid-account-details error. -/
theorem find_user_auth (hp : Int → String) (data : List Account)
    (huniq : NumbersUnique data) : AuthLookupSpec hp data := by
  refine ⟨?_, ?_, ?_, ?_, ?_⟩
  · intro account_no pin
    rw [find_user, List.find?_isSome]
    constructor
    · rintro ⟨u, hu, hm⟩
      exact ⟨u, hu, credMatch_eq_true_iff.mp hm⟩
    · rintro ⟨u, hu, hm⟩
      exact ⟨u, hu, credMatch_eq_true_iff.mpr hm⟩
  · intro account_no pin u hfind
    exact ⟨List.mem_of_find?_eq_some hfind,
      credMatch_eq_true_iff.mp (List.find?_some hfind)⟩
  · intro u hu pin2 hwrong
    cases hfind : find_user hp data u.account_no pin2 with
    | none => rfl
    | some v =>
      obtain ⟨hvmem, hvno, hvpin⟩ : v ∈ data ∧ v.account_no = u.account_no ∧
          v.pin = hp pin2 :=
        ⟨List.mem_of_find?_eq_some hfind,
          credMatch_eq_true_iff.mp (List.find?_some hfind)⟩
      have : v = u := huniq v hvmem u hu hvno
      exact absurd (show hp pin2 = u.pin by rw [← hvpin, this]) hwrong
  · intro account_no pin hnone
    cases hfind : find_user hp data account_no pin with
    | none => rfl
    | some v =>
      obtain ⟨hvmem, hvno, _⟩ : v ∈ data ∧ v.account_no = account_no ∧
          v.pin = hp pin :=
        ⟨List.mem_of_find?_eq_some hfind,
          credMatch_eq_true_iff.mp (List.find?_some hfind)⟩
      exact absurd hvno (hnone v hvmem)
  · intro account_no pin amount now hnone hpos
    have hd : deposit hp data account_no pin amount now =
        .error "Invalid account details." := by
      rw [deposit, if_neg (not_le.mpr hpos), hnone]
    have hw : withdraw hp data account_no pin amount now =
        .error "Invalid account details." := by
      rw [withdraw, hnone]
    exact ⟨hd.trans hw.symm, hd⟩

theorem find_user_auth_witness :
    NumbersUnique [demoAcct, zeroAcct] ∧
      AuthLookupSpec demoHash [demoAcct, zeroAcct] :=
  ⟨by decide, find_user_auth demoHash [demoAcct, zeroAcct] (by decide)⟩

/-! ## Claim C5: account creation on valid input -/

/-- C5: for a valid creation input (adult age, PIN whose string form has
the checked length 4) and a candidate stream as produced by
`random.choices` (8-character strings over A-Z, 0-9, at least one of which
is fresh), `create_account` succeeds, appends a zero-balance account with
empty history, and returns a fresh valid account number under which the
new account is findable with the same PIN. -/
theorem create_account_valid_succeeds (hp : Int → String)
    (data : List Account) (name : String) (age : Int) (email : String)
    (pin : Int) (cands : List String)
    (hage : 18 ≤ age) (hlen : (toString pin).length = 4)
    (hcands : ∀ c ∈ cands, ValidCandidate c)
    (hfresh : ∃ c ∈ cands, ∀ u ∈ data, u.account_no ≠ c) :
    ∃ account_no,
      create_account hp data name age email pin cands =
        .ok (data ++ [new_user name age email (hp pin) account_no],
          account_no) ∧
      ValidCandidate account_no ∧
      (∀ u ∈ data, u.account_no ≠ account_no) ∧
      find_user hp (data ++ [new_user name age email (hp pin) account_no])
          account_no pin =
        some (new_user name age email (hp pin) account_no) ∧
      (new_user name age email (hp pin) account_no).balance = 0 ∧
      (new_user name age email (hp pin) account_no).transactions = [] := by
  obtain ⟨r, hgen, hrmem, hrfresh⟩ :=
    generate_account_number_spec data cands hfresh
  have hv : ¬ (age < 18 ∨ (toString pin).length ≠ 4) := by
    push_neg
    exact ⟨hage, hlen⟩
  refine ⟨r, ?_, hcands r hrmem, hrfresh, ?_, rfl, rfl⟩
  · rw [create_account, if_neg hv, hgen]
  · have h1 : ∀ v ∈ data, credMatch hp r pin v = false := by
      intro v hvmem
      rcases hm : credMatch hp r pin v with _ | _
      · rfl
      · exact absurd (credMatch_eq_true_iff.mp hm).1 (hrfresh v hvmem)
    have h2 : credMatch hp r pin (new_user name age email (hp pin) r) =
        true :=
      credMatch_eq_true_iff.mpr ⟨rfl, rfl⟩
    simpa using find_user_prefix data [] h1 h2

theorem create_account_valid_succeeds_witness :
    (18 ≤ (30 : Int)) ∧ (toString (1234 : Int)).length = 4 ∧
    (∀ c ∈ ["XY12ZW89"], ValidCandidate c) ∧
    (∃ c ∈ ["XY12ZW89"], ∀ u ∈ [demoAcct], u.account_no ≠ c) ∧
    ∃ account_no,
      create_account demoHash [demoAcct] "Carol" 30 "c@x.com" 1234
          ["XY12ZW89"] =
        .ok ([demoAcct] ++
          [new_user "Carol" 30 "c@x.com" (demoHash 1234) account_no],
          account_no) ∧
      ValidCandidate account_no ∧
      (∀ u ∈ [demoAcct], u.account_no ≠ account_no) ∧
      find_user demoHash
          ([demoAcct] ++
            [new_user "Carol" 30 "c@x.com" (demoHash 1234) account_no])
          account_no 1234 =
        some (new_user "Carol" 30 "c@x.com" (demoHash 1234) account_no) ∧
      (new_user "Carol" 30 "c@x.com" (demoHash 1234) account_no).balance =
        0 ∧
      (new_user "Carol" 30 "c@x.com" (demoHash 1234)
        account_no).transactions = [] :=
  ⟨by decide, by decide, by decide, by decide,
   create_account_valid_succeeds demoHash [demoAcct] "Carol" 30 "c@x.com"
     1234 ["XY12ZW89"] (by decide) (by decide) (by decide) (by decide)⟩

/-! ## Claim C6: deposit then withdraw of the same amount -/

/-- Exact-arithmetic idealization of the deposit-then-withdraw cycle: over
`ℚ`, depositing `x > 0` and then withdrawing `x` with the same credentials
both succeed, restore the balance to its prior value, and extend the
ledger by exactly the deposit record followed by the withdraw record.
Under the source's actual float semantics the restoration fails (e.g. at
balance `0.5` with `x = 1e16`), so this lemma serves to isolate that
failure to rounding alone: control flow, ledger growth, and the success of
both operations are unaffected. -/
theorem deposit_then_withdraw_restores_balance (hp : Int → String)
    (data : List Account) (account_no : String) (pin : Int) (u : Account)
    (x : ℚ) (now1 now2 : String)
    (hfind : find_user hp data account_no pin = some u)
    (hbal : 0 ≤ u.balance) (hx : 0 < x) :
    ∃ d1 d2 u2,
      deposit hp data account_no pin x now1 = .ok d1 ∧
      withdraw hp d1 account_no pin x now2 = .ok d2 ∧
      find_user hp d2 account_no pin = some u2 ∧
      u2.balance = u.balance ∧
      u2.transactions = u.transactions ++
        [⟨"deposit", x, now1⟩, ⟨"withdraw", x, now2⟩] ∧
      u2.transactions.length = u.transactions.length + 2 := by
  have hamt : ¬ x ≤ 0 := not_le.mpr hx
  obtain ⟨l1, l2, hdata, h1, h2, hdep⟩ := deposit_ok_decomp hfind hamt
  have hfind1 : find_user hp (l1 ++ depositUpd x now1 u :: l2)
      account_no pin = some (depositUpd x now1 u) :=
    find_user_prefix l1 l2 h1
      ((credMatch_depositUpd hp account_no pin x now1 u).trans h2)
  have hguard : ¬ (x ≤ 0 ∨ (depositUpd x now1 u).balance < x) := by
    push_neg
    refine ⟨hx, ?_⟩
    have hle : x ≤ u.balance + x := by linarith
    simpa [depositUpd] using hle
  obtain ⟨m1, m2, hd1, g1, g2, hwd⟩ := withdraw_ok_decomp hfind1 hguard
  refine ⟨l1 ++ depositUpd x now1 u :: l2,
    m1 ++ withdrawUpd x now2 (depositUpd x now1 u) :: m2,
    withdrawUpd x now2 (depositUpd x now1 u), hdep, hwd, ?_, ?_, ?_, ?_⟩
  · exact find_user_prefix m1 m2 g1
      ((credMatch_withdrawUpd hp account_no pin x now2 _).trans g2)
  · simp [withdrawUpd, depositUpd]
  · simp [withdrawUpd, depositUpd]
  · simp [withdrawUpd, depositUpd]

theorem deposit_then_withdraw_restores_balance_witness :
    find_user demoHash [demoAcct] "AB12CD34" 1234 = some demoAcct ∧
    (0 ≤ demoAcct.balance) ∧ ((0 : ℚ) < 7) ∧
    ∃ d1 d2 u2,
      deposit demoHash [demoAcct] "AB12CD34" 1234 7 "t1" = .ok d1 ∧
      withdraw demoHash d1 "AB12CD34" 1234 7 "t2" = .ok d2 ∧
      find_user demoHash d2 "AB12CD34" 1234 = some u2 ∧
      u2.balance = demoAcct.balance ∧
      u2.transactions = demoAcct.transactions ++
        [⟨"deposit", 7, "t1"⟩, ⟨"withdraw", 7, "t2"⟩] ∧
      u2.transactions.length = demoAcct.transactions.length + 2 :=
  ⟨by with_unfolding_all decide, by with_unfolding_all decide,
   by with_unfolding_all decide,
   deposit_then_withdraw_restores_balance demoHash [demoAcct] "AB12CD34"
     1234 demoAcct 7 "t1" "t2" (by with_unfolding_all decide)
     (by with_unfolding_all decide) (by with_unfolding_all decide)⟩

set_option maxRecDepth 8000 in
set_option exponentiation.threshold 600 in
/-- C6: evaluation of the source's arithmetic, as Python actually performs
it on IEEE-754 doubles, at a failing input for the claim.  Starting from
an account with balance `0.5`, depositing `x = 1e16` and then withdrawing
`x = 1e16` with correct credentials both succeed and append the two ledger
records, but the final balance is `0`, not the prior `0.5`: the deposit
stores `fl (0.5 + 1e16) = 1e16`, and the withdrawal then stores
`fl (1e16 - 1e16) = 0`.  So the claimed restoration ("returns the balance
to its value before the deposit, for every positive amount") is false of
the program; it holds only under exact arithmetic, which the spec itself
prefers ("a fixed-point/decimal type is preferable to avoid rounding
drift"). -/
theorem deposit_then_withdraw_float_drift :
    halfAcct.balance = 1 / 2 ∧
    depositFl demoHash [halfAcct] "QQ11WW22" 7777 (10 ^ 16) "t1" =
      .ok [halfAcctAfterDeposit] ∧
    withdrawFl demoHash [halfAcctAfterDeposit] "QQ11WW22" 7777 (10 ^ 16)
      "t2" = .ok [halfAcctAfterCycle] ∧
    find_user demoHash [halfAcctAfterCycle] "QQ11WW22" 7777 =
      some halfAcctAfterCycle ∧
    halfAcctAfterCycle.balance = 0 ∧
    halfAcctAfterCycle.balance ≠ halfAcct.balance ∧
    halfAcctAfterCycle.transactions.length =
      halfAcct.transactions.length + 2 := by
  refine ⟨rfl, ?_, ?_, ?_, rfl, ?_, rfl⟩
  · with_unfolding_all rfl
  · with_unfolding_all rfl
  · with_unfolding_all rfl
  · with_unfolding_all decide

/-! ## Claim C9: frame property of deposit and withdraw -/

/-- All fields other than `balance` and `transactions` agree. -/
def SameOwner (u u2 : Account) : Prop :=
  u2.name = u.name ∧ u2.age = u.age ∧ u2.email = u.email ∧
  u2.pin = u.pin ∧ u2.account_no = u.account_no

/-- The store changed in exactly one position: the surrounding accounts
are identical lists, and the changed record keeps every field except
`balance` and `transactions`. -/
def FramePreserved (data d2 : List Account) : Prop :=
  ∃ l1 u u2 l2, data = l1 ++ u :: l2 ∧ d2 = l1 ++ u2 :: l2 ∧ SameOwner u u2

/-- C9: every successful `deposit` or `withdraw` rewrites a single account
in place, changing only its `balance` and `transactions`; every other
account is untouched and keeps its position. -/
theorem deposit_withdraw_frame (hp : Int → String) (data : List Account)
    (account_no : String) (pin : Int) (amount : ℚ) (now : String) :
    (∀ d2, deposit hp data account_no pin amount now = .ok d2 →
      FramePreserved data d2) ∧
    (∀ d2, withdraw hp data account_no pin amount now = .ok d2 →
      FramePreserved data d2) := by
  constructor
  · intro d2 h
    by_cases hamt : amount ≤ 0
    · simp [deposit, hamt] at h
    · cases hfind : find_user hp data account_no pin with
      | none => simp [deposit, hamt, hfind] at h
      | some u =>
        obtain ⟨l1, l2, hdata, h1, h2, hdep⟩ :=
          deposit_ok_decomp hfind hamt
        rw [hdep] at h
        obtain rfl : l1 ++ depositUpd amount now u :: l2 = d2 := by
          injection h
        exact ⟨l1, u, depositUpd amount now u, l2, hdata, rfl,
          rfl, rfl, rfl, rfl, rfl⟩
  · intro d2 h
    cases hfind : find_user hp data account_no pin with
    | none => simp [withdraw, hfind] at h
    | some u =>
      by_cases hamt : amount ≤ 0 ∨ u.balance < amount
      · simp only [withdraw, hfind] at h
        rw [if_pos hamt] at h
        exact absurd h (by simp)
      · obtain ⟨l1, l2, hdata, h1, h2, hwd⟩ :=
          withdraw_ok_decomp hfind hamt
        rw [hwd] at h
        obtain rfl : l1 ++ withdrawUpd amount now u :: l2 = d2 := by
          injection h
        exact ⟨l1, u, withdrawUpd amount now u, l2, hdata, rfl,
          rfl, rfl, rfl, rfl, rfl⟩

theorem deposit_withdraw_frame_witness :
    FramePreserved [demoAcct] [depositUpd 5 "t" demoAcct] :=
  (deposit_withdraw_frame demoHash [demoAcct] "AB12CD34" 1234 5 "t").1
    [depositUpd 5 "t" demoAcct] (by with_unfolding_all decide)

/-! ## Claim C10: deposit and withdraw validate in opposite orders -/

/-- C10: with bad credentials and a non-positive amount, `deposit` reports
the amount error (its amount check precedes the lookup) while `withdraw`
reports the generic account error (its lookup precedes the amount
check). -/
theorem deposit_withdraw_validation_order (hp : Int → String)
    (data : List Account) (account_no : String) (pin : Int) (amount : ℚ)
    (now : String) (hamt : amount ≤ 0)
    (hfind : find_user hp data account_no pin = none) :
    deposit hp data account_no pin amount now =
      .error "Amount must be positive." ∧
    withdraw hp data account_no pin amount now =
      .error "Invalid account details." := by
  constructor
  · rw [deposit, if_pos hamt]
  · rw [withdraw, hfind]

theorem deposit_withdraw_validation_order_witness :
    ((0 : ℚ) ≤ 0) ∧
    find_user demoHash [demoAcct] "WRONGNO1" 1111 = none ∧
    deposit demoHash [demoAcct] "WRONGNO1" 1111 0 "t" =
      .error "Amount must be positive." ∧
    withdraw demoHash [demoAcct] "WRONGNO1" 1111 0 "t" =
      .error "Invalid account details." :=
  ⟨by with_unfolding_all decide, by decide,
   deposit_withdraw_validation_order demoHash [demoAcct] "WRONGNO1" 1111 0
     "t" (by with_unfolding_all decide) (by decide)⟩

/-! ## Claims C7 and C8: persistence -/

theorem decodeTransaction_encodeTransaction (t : Transaction) :
    decodeTransaction (encodeTransaction t) = some t := rfl

theorem decodeList_encode {α : Type} (dec : Json → Option α)
    (enc : α → Json) (h : ∀ a, dec (enc a) = some a) (xs : List α) :
    decodeList dec (xs.map enc) = some xs := by
  induction xs with
  | nil => rfl
  | cons a rest ih => simp [decodeList, h a, ih]

theorem decodeAccount_encodeAccount (u : Account) :
    decodeAccount (encodeAccount u) = some u := by
  have htx : decodeList decodeTransaction
      (u.transactions.map encodeTransaction) = some u.transactions :=
    decodeList_encode _ _ decodeTransaction_encodeTransaction
      u.transactions
  simp +decide [encodeAccount, decodeAccount, getField, asStr, asNum,
    asInt, htx, Rat.intCast_den, Rat.intCast_num]

/-- C7: serializing the store with `_save_data` and interpreting the
resulting document as `_load_data` does reproduces exactly the same
account list: same accounts, same order, every field and every transaction
identical. -/
theorem save_load_round_trip (data : List Account) :
    load_data (.parsed (save_data data)) = .ok (some data) := by
  simp only [load_data, save_data, decodeAccounts]
  rw [decodeList_encode _ _ decodeAccount_encodeAccount data]

/-- C8: `_load_data` does silently recover to the empty store when the
backing file is missing or when `json.load` raises a `JSONDecodeError`,
but "load never crashes" is false of the code: the `except` clause
catches only `json.JSONDecodeError`, so backing-file content whose read
or parse raises any other exception — bytes that are not valid UTF-8
(`UnicodeDecodeError`), a deeply nested document (`RecursionError`) —
propagates out of `_load_data` as a crash, contradicting the claim and
the function's own docstring ("If file does not exist or is corrupted,
returns empty list"). -/
theorem load_data_crash_on_corrupt_encoding :
    load_data .missing = .ok (some []) ∧
    load_data .unparseable = .ok (some []) ∧
    load_data (.raises "UnicodeDecodeError") =
      .error "UnicodeDecodeError" ∧
    ∀ r, load_data (.raises "UnicodeDecodeError") ≠ .ok r := by
  refine ⟨rfl, rfl, rfl, ?_⟩
  intro r h
  exact Except.noConfusion h
